import Mathlib

/-!
Verification of the magiconair/properties core (tokenizer, parser, property
store, expansion engine, serializer) against its natural-language
specification.  Go strings are modelled as lists of unicode scalar values
(`Str`); Go byte offsets are tracked explicitly where the source uses them
(the lexer's `Pos` values).  Go maps (`map[string]string`, `map[string]bool`)
are modelled as association lists with first-match lookup and in-place
update, which matches map semantics because keys stay unique.  The process
environment consulted by `os.Getenv` is an explicit function argument `env`.
General recursion of the Go source is made total with an explicit `fuel`
argument; running out of fuel is a distinguished outcome that no theorem
below identifies with a real result of the source.
-/

namespace Props

/-- Go strings, modelled as their sequence of runes. -/
abbrev Str := List Char

/-- Convert a Lean string literal to the model type. -/
def str (s : String) : Str := s.toList

/-- The empty process environment: `os.Getenv` yields `""` for unset names. -/
def env0 : Str → Str := fun _ => []

/-- First-match lookup in an association list (Go map read `m[k]`). -/
def lookupA {α : Type} : List (Str × α) → Str → Option α
  | [], _ => none
  | (k, v) :: rest, key => if k = key then some v else lookupA rest key

/-- In-place update of an association list (Go map write `m[k] = v`). -/
def updateA {α : Type} : List (Str × α) → Str → α → List (Str × α)
  | [], key, v => [(key, v)]
  | (k, w) :: rest, key, v =>
    if k = key then (k, v) :: rest else (k, w) :: updateA rest key v

/-- `strings.Index(s, pat)` in rune units: index of the first occurrence of
`pat` in `s`, `none` when absent.  `subIndex s [] = some 0` like Go. -/
def subIndex : Str → Str → Option Nat
  | s, pat =>
    if pat.isPrefixOf s then some 0
    else
      match s with
      | [] => none
      | _ :: rest => (subIndex rest pat).map (· + 1)

/-- Errors of the expansion engine.  `malformed` is Go's
"Malformed expression", `circular` is "Circular reference"; `fuelOut` is the
artificial out-of-fuel outcome of the embedding. -/
inductive ExpandErr : Type
  | malformed
  | circular
  | fuelOut
deriving DecidableEq, Repr

/-- `expand` from properties.go (lines 368-398): recursively expands
`(prefix)key(postfix)` expressions.  `keys` is the seen-set
(`map[string]bool`), `values` the store map, `env` stands for `os.Getenv`.
`pre`/`post` are the source's `prefix`/`postfix` parameters. -/
def expand (fuel : Nat) (s : Str) (keys : List Str) (pre post : Str)
    (values : List (Str × Str)) (env : Str → Str) : Except ExpandErr Str :=
  match fuel with
  | 0 => .error .fuelOut
  | fuel + 1 =>
    match subIndex s pre with
    | none => .ok s
    | some start =>
      let keyStart := start + pre.length
      match subIndex (s.drop keyStart) post with
      | none => .error .malformed
      | some keyLen =>
        let endPos := keyStart + keyLen + post.length - 1
        let key := (s.drop keyStart).take keyLen
        if keys.contains key then .error .circular
        else
          let val :=
            match lookupA values key with
            | some v => v
            | none => env key
          expand fuel (s.take start ++ val ++ s.drop (endPos + 1))
            (key :: keys) pre post values env

/-- A buffered comment line as kept by parser.go (`prefixedComment`): the
marker prefix and the comment text. -/
structure prefixedComment where
  pre : Str
  text : Str
deriving DecidableEq, Repr

/-- The property store.  `pre`/`post`/`m` are the `Prefix`/`Postfix`/`m`
fields of the `Properties` struct in properties.go; `k` (first-seen key
order), `c` (comments per key) and `trailingComments` are the additional
fields that parser.go maintains. -/
structure Properties where
  pre : Str
  post : Str
  m : List (Str × Str)
  k : List Str
  c : List (Str × List prefixedComment)
  trailingComments : List prefixedComment
deriving DecidableEq, Repr

/-- `NewProperties` from properties.go: empty store configured for
`${key}` expressions. -/
def newProperties : Properties :=
  { pre := str "$\x7b", post := str "\x7d", m := [], k := [], c := [],
    trailingComments := [] }

/-- The method `(*Properties).expand` from properties.go: with empty
prefix and postfix nothing is expanded, otherwise the recursive `expand`
runs with a fresh seen-set. -/
def expandP (fuel : Nat) (env : Str → Str) (p : Properties) (input : Str) :
    Except ExpandErr Str :=
  if p.pre = [] ∧ p.post = [] then .ok input
  else expand fuel input [] p.pre p.post p.m env

/-- `Get` from properties.go: look the key up and expand its value.
`.ok none` is Go's `("", false)`; an expansion failure makes Go `Get`
panic, modelled as `.error`. -/
def get (fuel : Nat) (env : Str → Str) (p : Properties) (key : Str) :
    Except ExpandErr (Option Str) :=
  match lookupA p.m key with
  | none => .ok none
  | some v =>
    match expandP fuel env p v with
    | .error e => .error e
    | .ok expanded => .ok (some expanded)

/-- `Set` from properties.go (lines 308-317): first expand the new value
and return its error without touching the store; then read the previous
value through `Get` (whose panic would also abort before the write) and
finally assign `p.m[key] = value`.  The second component is the store
after the call. -/
def set (fuel : Nat) (env : Str → Str) (p : Properties) (key value : Str) :
    Except ExpandErr (Str × Bool) × Properties :=
  match expandP fuel env p value with
  | .error e => (.error e, p)
  | .ok _ =>
    match get fuel env p key with
    | .error e => (.error e, p)
    | .ok prev =>
      (.ok (prev.getD [], prev.isSome), { p with m := updateA p.m key value })

/-! ### Tokenizer (doc.go) and parser (parser.go)

The lexer in doc.go emits Key, Delim, Value, EOF and Error items; the token
type also has the Comment kind handled by parser.go (its emitting lexer
variant is not among the sources).  Item positions are byte offsets into the
input, as in the source (`Pos`). -/

/-- `itemType` from doc.go, extended with `itemComment` which parser.go
consumes. -/
inductive itemType : Type
  | itemError
  | itemEOF
  | itemDelim
  | itemKey
  | itemValue
  | itemComment
deriving DecidableEq, Repr

/-- `item` from doc.go: token kind, starting byte offset, text. -/
structure item where
  typ : itemType
  pos : Nat
  val : Str
deriving DecidableEq, Repr

/-- Total UTF-8 byte length of a string. -/
def utf8Len (s : Str) : Nat := s.foldl (fun a c => a + c.utf8Size) 0

/-- Hex digit value accepted by `strconv.Unquote` for `\uXXXX` literals. -/
def hexVal (c : Char) : Option Nat :=
  if '0' ≤ c ∧ c ≤ '9' then some (c.toNat - 48)
  else if 'a' ≤ c ∧ c ≤ 'f' then some (c.toNat - 87)
  else if 'A' ≤ c ∧ c ≤ 'F' then some (c.toNat - 55)
  else none

/-- The scanning loop of `lexKey` from doc.go (lines 197-255), including the
inlined `scanUnicodeLiteral`.  `start` is the item start offset used by
`errorf`, `runes` the accumulated key, `pos` the current byte offset.
On a terminator (`' '`, `':'`, `'='`) the rune is not consumed (`backup`) and
the accumulated key plus the remaining input are returned.  End of input
inside a key or an escape is the "premature EOF" error; an escape other than
the handled ones is the "invalid escape sequence" error.  A `\u` escape
reaching end of input before four digits yields the `eof` rune, which the
later `string(runes)` conversion renders as U+FFFD, and the loop then runs
into the "premature EOF" error. -/
def keyLoop (start : Nat) (runes : Str) (s : Str) (pos : Nat) :
    Except item (Str × Str × Nat) :=
  match s with
  | [] => .error ⟨.itemError, start, str "premature EOF"⟩
  | c :: rest =>
    if c = '\\' then
      match rest with
      | [] => .error ⟨.itemError, start, str "premature EOF"⟩
      | r :: rest2 =>
        if r = ' ' ∨ r = ':' ∨ r = '=' then
          keyLoop start (runes ++ [r]) rest2 (pos + 1 + r.utf8Size)
        else if r = 'u' ∨ r = 'U' then
          match rest2 with
          | d1 :: d2 :: d3 :: d4 :: rest3 =>
            match hexVal d1, hexVal d2, hexVal d3, hexVal d4 with
            | some h1, some h2, some h3, some h4 =>
              let n := ((h1 * 16 + h2) * 16 + h3) * 16 + h4
              if 0xd800 ≤ n ∧ n < 0xe000 then
                .error ⟨.itemError, start,
                  str "invalid unicode literal " ++ [d1, d2, d3, d4]⟩
              else
                keyLoop start (runes ++ [Char.ofNat n]) rest3
                  (pos + 2 + utf8Len [d1, d2, d3, d4])
            | _, _, _, _ =>
              .error ⟨.itemError, start,
                str "invalid unicode literal " ++ [d1, d2, d3, d4]⟩
          | _ =>
            -- the whole rest was consumed looking for the four digits; the
            -- loop's next step reads end of input inside the key, which is
            -- the "premature EOF" error (inlined here)
            .error ⟨.itemError, start, str "premature EOF"⟩
        else
          .error ⟨.itemError, start, str "invalid escape sequence " ++ [r]⟩
    else if c = ' ' ∨ c = ':' ∨ c = '=' then
      .ok (runes, c :: rest, pos)
    else
      keyLoop start (runes ++ [c]) rest (pos + c.utf8Size)

/-- The scanning loop of `lexValue` from doc.go (lines 267-294): accumulate
runes until a newline (emit the Value item and resume key scanning after the
ignored newline) or end of input (emit the Value item and the EOF item).
`start` is the Value item's offset, fixed after the leading spaces were
ignored. -/
def valueLoop (start : Nat) (runes : Str) (s : Str) (pos : Nat) :
    List item × Option (Str × Nat) :=
  match s with
  | [] => ([⟨.itemValue, start, runes⟩, ⟨.itemEOF, pos, []⟩], none)
  | c :: rest =>
    if c = '\n' then ([⟨.itemValue, start, runes⟩], some (rest, pos + 1))
    else valueLoop start (runes ++ [c]) rest (pos + c.utf8Size)

/-- Result of one `lexKey` → `lexDelim` → `lexValue` round of the state
machine: either the stream ends (EOF emitted, or an error item terminates
the scan) or scanning resumes at `lexKey` on the rest of the input. -/
inductive lexStep : Type
  | halt (items : List item)
  | next (items : List item) (rest : Str) (pos : Nat)
deriving Repr

/-- One round of the doc.go state machine starting in `lexKey`: emit EOF on
empty input; scan the key (emitting a Key item only when it is non-empty),
ignore trailing spaces, scan the delimiter (`lexDelim` consumes exactly one
rune, whatever it is, and errors on end of input), ignore the value's
leading spaces, and scan the value. -/
def lexOne (s : Str) (pos : Nat) : lexStep :=
  match s with
  | [] => .halt [⟨.itemEOF, pos, []⟩]
  | _ :: _ =>
    match keyLoop pos [] s pos with
    | .error it => .halt [it]
    | .ok (runes, rest, pos2) =>
      let keyItems : List item :=
        if runes.length > 0 then [⟨.itemKey, pos, runes⟩] else []
      let nsp := (rest.takeWhile (· = ' ')).length
      let rest2 := rest.drop nsp
      let pos3 := pos2 + nsp
      match rest2 with
      | [] => .halt (keyItems ++ [⟨.itemError, pos3, str "premature EOF"⟩])
      | d :: rest3 =>
        let delimItem : item := ⟨.itemDelim, pos3, [d]⟩
        let pos4 := pos3 + d.utf8Size
        let nsp2 := (rest3.takeWhile (· = ' ')).length
        let rest4 := rest3.drop nsp2
        let pos5 := pos4 + nsp2
        match valueLoop pos5 [] rest4 pos5 with
        | (items, none) => .halt (keyItems ++ [delimItem] ++ items)
        | (items, some (rest5, pos6)) =>
          .next (keyItems ++ [delimItem] ++ items) rest5 pos6

/-- Driver of the state machine (`run` in doc.go), with fuel bounding the
number of `lexKey` entries; `lex input` below supplies sufficient fuel,
since every round past the first consumes at least the newline. -/
def lexRun (fuel : Nat) (s : Str) (pos : Nat) : List item :=
  match fuel with
  | 0 => []
  | fuel + 1 =>
    match lexOne s pos with
    | .halt items => items
    | .next items rest pos2 => items ++ lexRun fuel rest pos2

/-- `lex` from doc.go: scan the whole input into its item sequence. -/
def lex (input : Str) : List item := lexRun (input.length + 1) input 0

/-- `unicode.IsSpace` as used by `strings.TrimSpace`, for the Latin-1 range
(the White_Space table above U+00FF is not consulted by any input in this
development). -/
def isSpaceGo (c : Char) : Bool :=
  c = ' ' ∨ c = '\t' ∨ c = '\n' ∨ c = Char.ofNat 11 ∨ c = Char.ofNat 12 ∨
    c = '\r' ∨ c = Char.ofNat 0x85 ∨ c = Char.ofNat 0xa0

/-- `strings.TrimSpace`. -/
def trimSpace (s : Str) : Str :=
  ((s.dropWhile isSpaceGo).reverse.dropWhile isSpaceGo).reverse

/-- A parse error as produced by the parser's `errorf` (parser.go lines
87-90): the formatted message "properties: Line %d: %s" carries the line
number and the offending token's text; the error value records both. -/
structure ParseErr where
  line : Nat
  tok : item
deriving DecidableEq, Repr

/-- The byte prefix `input[:n]` (`n` always falls on a rune boundary in this
development). -/
def takeBytes : Nat → Str → Str
  | _, [] => []
  | n, c :: rest =>
    if c.utf8Size ≤ n then c :: takeBytes (n - c.utf8Size) rest else []

/-- `lineNumber` from doc.go (lines 156-158): one plus the number of
newlines in the input before `lastPos`, the byte offset of the most recent
item handed to the parser. -/
def lineNumber (input : Str) (lastPos : Nat) : Nat :=
  1 + (takeBytes lastPos input).count '\n'

/-- The loop of `parse` from parser.go (lines 17-85) with
`preserveFormatting = false`, the mode used by every loader in load.go.
The parser expects Comment, Key or EOF; after a Key (whitespace-trimmed,
appended to `k` on first sight) it expects Value or EOF, EOF standing for an
implicit empty value.  Any other token kind aborts the parse through
`errorf`, which reports the line of `lastPos`, the offset of the most recent
token.  An exhausted item stream (never produced by `lex`) is reported like
an EOF-shaped token at `lastPos`.

`recordKey` is parser.go lines 62-66: append the key to the first-seen
order `k` unless the map already has it. -/
def recordKey (p : Properties) (key : Str) : Properties :=
  if (lookupA p.m key).isSome then p else { p with k := p.k ++ [key] }

/-- parser.go lines 70-73: attach the buffered comments to the key (only
executed once the next token turned out to be Value or EOF). -/
def flushComments (p : Properties) (key : Str)
    (comments : List prefixedComment) : Properties :=
  if comments.length > 0 then { p with c := updateA p.c key comments } else p

/-- parser.go lines 76/79: store the value for the key. -/
def putValue (p : Properties) (key value : Str) : Properties :=
  { p with m := updateA p.m key value }

def parseLoop (input : Str) (p : Properties) (comments : List prefixedComment)
    (lastPos : Nat) (items : List item) : Except ParseErr Properties :=
  match items with
  | [] => .error ⟨lineNumber input lastPos, ⟨.itemEOF, lastPos, []⟩⟩
  | tok :: rest =>
    match tok.typ with
    | .itemEOF => .ok p
    | .itemComment =>
      parseLoop input p (comments ++ [⟨str "#", tok.val.drop 1⟩]) tok.pos rest
    | .itemKey =>
      match rest with
      | [] => .error ⟨lineNumber input tok.pos, ⟨.itemEOF, tok.pos, []⟩⟩
      | tok2 :: rest2 =>
        match tok2.typ with
        | .itemEOF =>
          .ok (putValue
            (flushComments (recordKey p (trimSpace tok.val)) (trimSpace tok.val)
              comments) (trimSpace tok.val) [])
        | .itemValue =>
          parseLoop input
            (putValue
              (flushComments (recordKey p (trimSpace tok.val))
                (trimSpace tok.val) comments) (trimSpace tok.val) tok2.val)
            [] tok2.pos rest2
        | _ => .error ⟨lineNumber input tok2.pos, tok2⟩
    | _ => .error ⟨lineNumber input tok.pos, tok⟩

/-- The full pipeline `parse` (parser.go) over the doc.go lexer: scan the
input and run the parser on the resulting items, starting from the empty
`NewProperties` store. -/
def parse (input : Str) : Except ParseErr Properties :=
  parseLoop input newProperties [] 0 (lex input)

/-! ### Serializer (properties.go: Write, encode, encodeUtf8, encodeIso,
escape) -/

/-- `Encoding` from load.go. -/
inductive Encoding : Type
  | UTF8
  | ISO_8859_1
deriving DecidableEq, Repr

/-- `escape` from properties.go (lines 440-456): the four control
characters become their two-character escapes; a rune of the `special` set
gets a backslash prefix; everything else passes through. -/
def escape (r : Char) (special : Str) : Str :=
  if r = '\x0c' then str "\\f"
  else if r = '\n' then str "\\n"
  else if r = '\r' then str "\\r"
  else if r = '\t' then str "\\t"
  else if special.contains r then ['\\', r]
  else [r]

/-- Lowercase hex digit. -/
def hexDigit (n : Nat) : Char :=
  if n < 10 then Char.ofNat (48 + n) else Char.ofNat (87 + n)

/-- The four lowercase hex digits of `fmt.Sprintf("%04x", n)` for
`n < 0x10000`. -/
def hex4 (n : Nat) : Str :=
  [hexDigit (n / 4096 % 16), hexDigit (n / 256 % 16), hexDigit (n / 16 % 16),
    hexDigit (n % 16)]

/-- `encodeIso` from properties.go (lines 422-438): single-byte runes are
escaped, two-byte runes become `\uXXXX` literals, anything larger becomes
`?`. -/
def encodeIso (s : Str) (special : Str) : Str :=
  match s with
  | [] => []
  | r :: rest =>
    (if r.toNat < 256 then escape r special
     else if r.toNat < 65536 then '\\' :: 'u' :: hex4 r.toNat
     else ['?']) ++ encodeIso rest special

/-- `encodeUtf8` from properties.go (lines 412-420): every rune is escaped
in place. -/
def encodeUtf8 (s : Str) (special : Str) : Str :=
  match s with
  | [] => []
  | r :: rest => escape r special ++ encodeUtf8 rest special

/-- `encode` from properties.go (lines 400-410). -/
def encode (s : Str) (special : Str) (enc : Encoding) : Str :=
  match enc with
  | .UTF8 => encodeUtf8 s special
  | .ISO_8859_1 => encodeIso s special

/-- The line `Write` emits for one key (properties.go line 333):
`fmt.Sprintf("%s = %s\n", encode(key, " :", enc), encode(value, "", enc))`,
the value being the map entry for the key. -/
def writeLine (p : Properties) (enc : Encoding) (key : Str) : Str :=
  encode key (str " :") enc ++ str " = " ++
    encode ((lookupA p.m key).getD []) [] enc ++ str "\n"

/-- The lines `Write` emits for an iteration order of the map. -/
def writeLines (p : Properties) (enc : Encoding) (ord : List Str) : List Str :=
  ord.map (writeLine p enc)

/-- `Write` from properties.go (lines 330-341).  The source ranges over the
Go map `p.m`, whose iteration order is unspecified; the order is therefore
an explicit argument `ord` (a permutation of the map's keys).  The writer
never fails in this model, so the output is the emitted byte string. -/
def write (p : Properties) (enc : Encoding) (ord : List Str) : Str :=
  match ord with
  | [] => []
  | key :: rest => writeLine p enc key ++ write p enc rest

/-- Modelled from the spec's words (claim C6), for comparison with the
source-derived `encodeIso`: the per-rune encoding rule under the
single-byte target encoding.  The control characters `\f`, `\n`, `\r`, `\t`
become their two-character escapes; any other rune below `2^8` in the
special set gets a backslash prefix and otherwise passes through; runes
from `2^8` up to (excluding) `2^16` become the six-character `\uXXXX`
literal with four lowercase hex digits; runes at or above `2^16` become
`?`. -/
def specIsoRune (special : Str) (r : Char) : Str :=
  if r = '\x0c' then str "\\f"
  else if r = '\n' then str "\\n"
  else if r = '\r' then str "\\r"
  else if r = '\t' then str "\\t"
  else if r.toNat < 2 ^ 8 then
    (if special.contains r then ['\\', r] else [r])
  else if r.toNat < 2 ^ 16 then '\\' :: 'u' :: hex4 r.toNat
  else ['?']

/-! ### Claims about the expansion engine, Get and Set -/

/-- C1: For every store whose placeholder graph contains a self-reference
(`key=$\x7bkey\x7d`) or a mutual reference (`key1=$\x7bkey2\x7d`,
`key2=$\x7bkey1\x7d`), expanding such a value — and hence `Get` of such a
key, whose expansion failure Go turns into a panic, modelled as the error
result — fails with the circular-reference error: whenever the placeholder
key being resolved is already in the per-call seen-set, `expand` returns
the error instead of recursing (first conjunct); the self-referential and
mutually referential stores fail concretely for every fuel budget that
admits the finitely many recursion steps involved (remaining conjuncts). -/
theorem c1_circular_reference :
    (∀ fuel s keys pre post values env i j,
      subIndex s pre = some i →
      subIndex (s.drop (i + pre.length)) post = some j →
      keys.contains ((s.drop (i + pre.length)).take j) = true →
      expand (fuel + 1) s keys pre post values env = .error .circular) ∧
    (∀ fuel env,
      expandP (fuel + 2) env
        { newProperties with m := [(str "key", str "$\x7bkey\x7d")] }
        (str "$\x7bkey\x7d") = .error .circular) ∧
    (∀ fuel env,
      get (fuel + 2) env
        { newProperties with m := [(str "key", str "$\x7bkey\x7d")] }
        (str "key") = .error .circular) ∧
    (∀ fuel env,
      expandP (fuel + 3) env
        { newProperties with
          m := [(str "key1", str "$\x7bkey2\x7d"),
                (str "key2", str "$\x7bkey1\x7d")] }
        (str "$\x7bkey2\x7d") = .error .circular) ∧
    (∀ fuel env,
      get (fuel + 3) env
        { newProperties with
          m := [(str "key1", str "$\x7bkey2\x7d"),
                (str "key2", str "$\x7bkey1\x7d")] }
        (str "key1") = .error .circular) := by
  refine ⟨?_, fun fuel env => rfl, fun fuel env => rfl, fun fuel env => rfl,
    fun fuel env => rfl⟩
  intro fuel s keys pre post values env i j h1 h2 h3
  have h3m : (s.drop (i + pre.length)).take j ∈ keys := by simpa using h3
  simp [expand, h1, h2, h3m]

/-- Witness for C1: the general seen-set conjunct at a concrete input. -/
theorem c1_circular_reference_witness :
    expand 1 (str "$\x7ba\x7d") [str "a"] (str "$\x7b") (str "\x7d") [] env0 =
      .error .circular :=
  c1_circular_reference.1 0 (str "$\x7ba\x7d") [str "a"] (str "$\x7b")
    (str "\x7d") [] env0 0 1 (by decide) (by decide) (by decide)

/-- C2, counterexample: the claim asserts that `Set` succeeds on a value
with an unterminated placeholder, but `Set` expands the new value first and
returns the malformed-expression error without storing anything. -/
theorem c2_set_counterexample :
    set 5 env0 newProperties (str "key") (str "$\x7bke") =
      (.error .malformed, newProperties) := rfl

/-- C2, amended: the parser stores values verbatim, so a pair with the raw
value `$\x7bke` enters the store unexpanded (first conjunct, on the parser
run over the pair's token stream); `Get` of that key fails with the
malformed-expression error (second conjunct); and `Set` of such a value
also fails with the malformed-expression error, leaving the store
unchanged, rather than succeeding as the claim states (third conjunct). -/
theorem c2_amended_raw_retained :
    (parseLoop (str "key=$\x7bke") newProperties [] 0
        [⟨.itemKey, 0, str "key"⟩, ⟨.itemValue, 4, str "$\x7bke"⟩,
          ⟨.itemEOF, 9, []⟩] =
      .ok { newProperties with m := [(str "key", str "$\x7bke")], k := [str "key"] }) ∧
    (get 5 env0
        { newProperties with m := [(str "key", str "$\x7bke")], k := [str "key"] } (str "key") = .error .malformed) ∧
    (set 5 env0
        { newProperties with m := [(str "key", str "$\x7bke")], k := [str "key"] } (str "key2") (str "$\x7bke") =
      (.error .malformed,
        { newProperties with m := [(str "key", str "$\x7bke")], k := [str "key"] })) := ⟨rfl, rfl, rfl⟩

/-- C3, counterexample: `Set` reads the previous value through `Get`, which
expands it; with entries `a = x` and `k = $\x7ba\x7d`, setting `k` returns
the previous expanded value `x`, not the previous raw value `$\x7ba\x7d` as
the claim states. -/
theorem c3_prev_raw_counterexample :
    ((set 5 env0
        { newProperties with
          m := [(str "a", str "x"), (str "k", str "$\x7ba\x7d")] }
        (str "k") (str "y")).1 = .ok (str "x", true)) ∧
    lookupA [(str "a", str "x"), (str "k", str "$\x7ba\x7d")] (str "k") =
      some (str "$\x7ba\x7d") ∧
    str "x" ≠ str "$\x7ba\x7d" := ⟨rfl, rfl, by decide⟩

/-- C3, amended: when the new value expands successfully, `Set` stores it
and returns the key's previous **expanded** value together with `ok = true`
when the key had an entry (whose expansion succeeds), and `("", false)`
when it had none. -/
theorem c3_amended_set_prev_expanded :
    ∀ fuel env p key value w,
      expandP fuel env p value = .ok w →
      ((∀ v0 e0, lookupA p.m key = some v0 → expandP fuel env p v0 = .ok e0 →
        set fuel env p key value =
          (.ok (e0, true), { p with m := updateA p.m key value })) ∧
      (lookupA p.m key = none →
        set fuel env p key value =
          (.ok ([], false), { p with m := updateA p.m key value }))) := by
  intro fuel env p key value w hv
  constructor
  · intro v0 e0 h0 he
    simp [set, hv, get, h0, he]
  · intro h0
    simp [set, hv, get, h0]

/-- Witness for C3's amended theorem at a concrete store, both for an
existing key and for an absent one. -/
theorem c3_amended_set_prev_expanded_witness :
    (set 5 env0
        { newProperties with
          m := [(str "a", str "x"), (str "k", str "$\x7ba\x7d")] }
        (str "k") (str "y") =
      (.ok (str "x", true),
        { newProperties with
          m := updateA [(str "a", str "x"), (str "k", str "$\x7ba\x7d")]
            (str "k") (str "y") })) ∧
    (set 5 env0
        { newProperties with
          m := [(str "a", str "x"), (str "k", str "$\x7ba\x7d")] }
        (str "new") (str "y") =
      (.ok ([], false),
        { newProperties with
          m := updateA [(str "a", str "x"), (str "k", str "$\x7ba\x7d")]
            (str "new") (str "y") })) :=
  ⟨(c3_amended_set_prev_expanded 5 env0
      { newProperties with
        m := [(str "a", str "x"), (str "k", str "$\x7ba\x7d")] }
      (str "k") (str "y") (str "y") rfl).1 (str "$\x7ba\x7d") (str "x") rfl
      rfl,
    (c3_amended_set_prev_expanded 5 env0
      { newProperties with
        m := [(str "a", str "x"), (str "k", str "$\x7ba\x7d")] }
      (str "new") (str "y") (str "y") rfl).2 rfl⟩

/-- C9: expansion reports a circular reference on an acyclic placeholder
graph.  With entries `a = x` and `b = $\x7ba\x7d $\x7ba\x7d`, expanding
`b`'s value (and hence `Get` of `b`) fails with the circular-reference
error, because the per-call seen-set keeps every substituted key and the
second, sibling occurrence of `a` finds `a` already recorded — while `a`
itself, and hence the graph, is perfectly expandable (`Get a` yields
`x`). -/
theorem c9_acyclic_circular_error :
    (expandP 5 env0
        { newProperties with
          m := [(str "a", str "x"),
                (str "b", str "$\x7ba\x7d $\x7ba\x7d")] }
        (str "$\x7ba\x7d $\x7ba\x7d") = .error .circular) ∧
    (get 5 env0
        { newProperties with
          m := [(str "a", str "x"),
                (str "b", str "$\x7ba\x7d $\x7ba\x7d")] }
        (str "b") = .error .circular) ∧
    (get 5 env0
        { newProperties with
          m := [(str "a", str "x"),
                (str "b", str "$\x7ba\x7d $\x7ba\x7d")] }
        (str "a") = .ok (some (str "x"))) := ⟨rfl, rfl, rfl⟩

/-- C10: `Set` is atomic on error — the expansion check on the new value
runs before anything is assigned, so when it fails `Set` returns that very
error and the store is completely unchanged. -/
theorem c10_set_unchanged_on_error :
    ∀ fuel env p key value e,
      expandP fuel env p value = .error e →
      set fuel env p key value = (.error e, p) := by
  intro fuel env p key value e h
  simp [set, h]

/-- Witness for C10 at a concrete store and a malformed new value. -/
theorem c10_set_unchanged_on_error_witness :
    set 5 env0 { newProperties with m := [(str "a", str "x")] } (str "a")
        (str "$\x7bke") =
      (.error .malformed, { newProperties with m := [(str "a", str "x")] }) :=
  c10_set_unchanged_on_error 5 env0
    { newProperties with m := [(str "a", str "x")] } (str "a")
    (str "$\x7bke") .malformed rfl

/-! ### Claims about the tokenizer, the parser and the serializer -/

/-- C4, code behaviour at the claim's input: tokenizing `key` alone does
not emit a Key item with a synthesized empty Value — `lexKey` answers end
of input inside a key with the "premature EOF" error item, so the parse of
`key` fails instead of yielding the entry `key = ""` that the claim (and
the repository's own `TestBasic` with an empty value) expects. -/
theorem c4_key_alone_premature_eof :
    lex (str "key") = [⟨.itemError, 0, str "premature EOF"⟩] ∧
    parse (str "key") = .error ⟨1, ⟨.itemError, 0, str "premature EOF"⟩⟩ :=
  ⟨rfl, rfl⟩

/-- C5, code behaviour at the claim's inputs: no delimiter style yields the
entry `key = value`.  The lexer emits a Delim item for the rune after the
key, which the parser (expecting Value or EOF after a Key) rejects, so
`key=value` fails on the Delim token; `keyvalue` (empty delimiter) dies in
the lexer with "premature EOF"; and `key value` is even mis-tokenized —
`lexDelim` consumes the `v` as the delimiter, leaving the value `alue`. -/
theorem c5_delimiter_styles_fail :
    parse (str "key=value") = .error ⟨1, ⟨.itemDelim, 3, str "="⟩⟩ ∧
    parse (str "keyvalue") =
      .error ⟨1, ⟨.itemError, 0, str "premature EOF"⟩⟩ ∧
    lex (str "key value") =
      [⟨.itemKey, 0, str "key"⟩, ⟨.itemDelim, 4, str "v"⟩,
        ⟨.itemValue, 5, str "alue"⟩, ⟨.itemEOF, 9, []⟩] ∧
    parse (str "key value") = .error ⟨1, ⟨.itemDelim, 4, str "v"⟩⟩ :=
  ⟨rfl, rfl, rfl, rfl⟩

/-- Per-rune agreement of the source's `encodeIso` branch with the
specification's rule. -/
theorem encodeIso_rune_eq (special : Str) (r : Char) :
    (if r.toNat < 256 then escape r special
     else if r.toNat < 65536 then '\\' :: 'u' :: hex4 r.toNat
     else ['?']) = specIsoRune special r := by
  by_cases h1 : r = '\x0c'
  · subst h1; rfl
  by_cases h2 : r = '\n'
  · subst h2; rfl
  by_cases h3 : r = '\r'
  · subst h3; rfl
  by_cases h4 : r = '\t'
  · subst h4; rfl
  simp only [specIsoRune, escape, if_neg h1, if_neg h2, if_neg h3, if_neg h4,
    show (2 : Nat) ^ 8 = 256 by norm_num,
    show (2 : Nat) ^ 16 = 65536 by norm_num]

/-- C6: under the ISO-8859-1 target encoding each rune is encoded by the
claimed per-rune rule (`specIsoRune`, stated from the spec: two-character
escapes for the four control characters, backslash-prefix for special
single-byte runes, `\uXXXX` with four lowercase hex digits for runes in
`[2^8, 2^16)`, `?` above), and `Write` emits every stored pair as
`encode(key, " :") + " = " + encode(value, "") + "\n"`.  The encoding is a
total function — it has no error outcome. -/
theorem c6_iso_encoding :
    (∀ special s, encodeIso s special = (s.map (specIsoRune special)).flatten) ∧
    (∀ p ord, write p .ISO_8859_1 ord =
      (ord.map (fun key => encodeIso key (str " :") ++ str " = " ++
        encodeIso ((lookupA p.m key).getD []) [] ++ str "\n")).flatten) := by
  constructor
  · intro special s
    induction s with
    | nil => rfl
    | cons r rest ih => simp [encodeIso, ih, encodeIso_rune_eq]
  · intro p ord
    induction ord with
    | nil => rfl
    | cons key rest ih => simp [write, writeLine, encode, ih]

/-- C7, counterexample: `Write` iterates the unordered Go map, so the
iteration order is not determined by the store.  For the two-entry store
below, the reversed iteration order is as valid as the insertion order, and
the two orders produce different byte sequences — hence neither "identical
output on every invocation" nor "keys in first-seen order" is guaranteed by
the code. -/
theorem c7_write_order_counterexample :
    ([str "b", str "a"].Perm
      (({ newProperties with m := [(str "a", str "1"), (str "b", str "2")], k := [str "a", str "b"] } : Properties).m.map Prod.fst)) ∧
    write { newProperties with m := [(str "a", str "1"), (str "b", str "2")], k := [str "a", str "b"] } .ISO_8859_1 [str "b", str "a"] ≠
      write { newProperties with m := [(str "a", str "1"), (str "b", str "2")], k := [str "a", str "b"] } .ISO_8859_1 [str "a", str "b"] := by
  constructor
  · decide
  · decide

/-- C7, amended: `Write` concatenates one line per key of the iteration
order, so the multiset of emitted lines is determined by the store — any
two iteration orders that are permutations of each other produce
permutations of the same lines — but the byte sequence follows the map
iteration order, which the code leaves unspecified. -/
theorem c7_amended_write_lines :
    (∀ p enc ord, write p enc ord = (writeLines p enc ord).flatten) ∧
    (∀ p enc ord1 ord2, ord1.Perm ord2 →
      (writeLines p enc ord1).Perm (writeLines p enc ord2)) := by
  constructor
  · intro p enc ord
    induction ord with
    | nil => rfl
    | cons key rest ih => simp [write, writeLines, ih]
  · intro p enc ord1 ord2 h
    exact h.map (writeLine p enc)

/-- Witness for C7's amended theorem at a concrete store and orders. -/
theorem c7_amended_write_lines_witness :
    (writeLines { newProperties with m := [(str "a", str "1"), (str "b", str "2")], k := [str "a", str "b"] } .ISO_8859_1 [str "b", str "a"]).Perm
      (writeLines { newProperties with m := [(str "a", str "1"), (str "b", str "2")], k := [str "a", str "b"] } .ISO_8859_1 [str "a", str "b"]) :=
  c7_amended_write_lines.2
    { newProperties with m := [(str "a", str "1"), (str "b", str "2")], k := [str "a", str "b"] } .ISO_8859_1 [str "b", str "a"]
    [str "a", str "b"] (by decide)

/-- Every error of the parser loop reports the line computed from the
offending token's own byte offset: the parser's `lastPos` bookkeeping (set
on every `nextItem`) always equals the offset of the token named in the
error. -/
theorem parseLoop_error_line (input : Str) :
    ∀ n items, items.length ≤ n → ∀ p comments lastPos e,
      parseLoop input p comments lastPos items = .error e →
      e.line = lineNumber input e.tok.pos := by
  intro n
  induction n with
  | zero =>
    intro items hlen p comments lastPos e h
    have hnil : items = [] := List.length_eq_zero.mp (Nat.le_zero.mp hlen)
    subst hnil
    simp only [parseLoop, Except.error.injEq] at h
    subst h
    rfl
  | succ n ihn =>
    intro items hlen p comments lastPos e h
    cases items with
    | nil =>
      simp only [parseLoop, Except.error.injEq] at h
      subst h
      rfl
    | cons tok rest =>
      rcases tok with ⟨typ, pos, val⟩
      cases typ with
      | itemEOF => simp [parseLoop] at h
      | itemComment =>
        refine ihn rest ?_ _ _ _ e h
        simp only [List.length_cons] at hlen
        omega
      | itemError =>
        simp only [parseLoop, Except.error.injEq] at h
        subst h
        rfl
      | itemDelim =>
        simp only [parseLoop, Except.error.injEq] at h
        subst h
        rfl
      | itemValue =>
        simp only [parseLoop, Except.error.injEq] at h
        subst h
        rfl
      | itemKey =>
        cases rest with
        | nil =>
          simp only [parseLoop, Except.error.injEq] at h
          subst h
          rfl
        | cons tok2 rest2 =>
          rcases tok2 with ⟨typ2, pos2, val2⟩
          cases typ2 with
          | itemEOF => simp [parseLoop] at h
          | itemValue =>
            refine ihn rest2 ?_ _ _ _ e h
            simp only [List.length_cons] at hlen
            omega
          | itemError =>
            simp only [parseLoop, Except.error.injEq] at h
            subst h
            rfl
          | itemDelim =>
            simp only [parseLoop, Except.error.injEq] at h
            subst h
            rfl
          | itemKey =>
            simp only [parseLoop, Except.error.injEq] at h
            subst h
            rfl
          | itemComment =>
            simp only [parseLoop, Except.error.injEq] at h
            subst h
            rfl

/-- C8: whenever the token stream presents a token of an unexpected kind,
`parse` fails with an error that records the offending token (the parser's
`errorf` formats "properties: Line %d: %s" from the line number and the
token's text) and whose line number is one plus the count of newline
characters in the input strictly before that token's byte offset
(`lineNumber` over the parser's `lastPos`, which tracks the most recent
token). -/
theorem c8_parse_error_line_number :
    ∀ input e, parse input = .error e →
      e.line = 1 + (takeBytes e.tok.pos input).count '\n' := by
  intro input e h
  exact parseLoop_error_line input (lex input).length (lex input) le_rfl
    newProperties [] 0 e h

/-- Witness for C8: `key=value` fails on the unexpected Delim token at byte
offset 3 and indeed reports line 1. -/
theorem c8_parse_error_line_number_witness :
    parse (str "key=value") = .error ⟨1, ⟨.itemDelim, 3, str "="⟩⟩ ∧
    (1 : Nat) =
      1 + (takeBytes ((⟨.itemDelim, 3, str "="⟩ : item)).pos
        (str "key=value")).count '\n' :=
  ⟨rfl, c8_parse_error_line_number (str "key=value")
    ⟨1, ⟨.itemDelim, 3, str "="⟩⟩ rfl⟩

end Props
